import Mathlib

/-!
Shallow embedding of the CyCoreSystems/restclient Go package.

The package builds REST requests, classifies HTTP response status codes
into a small error taxonomy, and encodes request bodies as JSON or as
url-encoded forms. Strings handled character by character (struct tags,
response body bytes) are modelled as lists of characters; the others as
Lean strings. Machine integers hold HTTP status codes, which the code
only compares, so Int models them exactly.
-/

namespace Restclient

/-- Classified errors returned by ProcessStatusCode in restclient.go.
The first three constructors mirror the Go error structs NotFoundError,
RequestError and ServerError, each carrying the StatusCode, Status and
wrapped Err fields; the wrapped error built by the Go call
fmt.Errorf with format percent-s applied to resp.Status is its text, so
err here holds that text. The generic constructor mirrors the error
built from the text "Unhandled StatusCode: " followed by the status. -/
inductive RestError where
  | notFound (statusCode : Int) (status : String) (err : String)
  | request (statusCode : Int) (status : String) (err : String)
  | server (statusCode : Int) (status : String) (err : String)
  | generic (msg : String)
deriving DecidableEq

/-- ProcessStatusCode, restclient.go lines 237 to 262: classify the
StatusCode of the response. none models the nil error return. -/
def processStatusCode (statusCode : Int) (status : String) : Option RestError :=
  if statusCode ≥ 300 ∨ statusCode < 200 then
    if statusCode = 404 then
      some (RestError.notFound statusCode status status)
    else if 400 ≤ statusCode ∧ statusCode < 500 then
      some (RestError.request statusCode status status)
    else if 500 ≤ statusCode ∧ statusCode < 600 then
      some (RestError.server statusCode status status)
    else
      some (RestError.generic ("Unhandled StatusCode: " ++ status))
  else
    none

/-- The classification the specification describes, written from its words:
2xx means no error; 404 a not-found error; the other 4xx a request error;
5xx a server error; everything else a generic unclassified error; the three
typed errors carry the original code and status text unchanged. -/
def claimedStatusResult (c : Int) (s : String) : Option RestError :=
  if 200 ≤ c ∧ c < 300 then none
  else if c = 404 then some (RestError.notFound c s s)
  else if 400 ≤ c ∧ c < 500 ∧ c ≠ 404 then some (RestError.request c s s)
  else if 500 ≤ c ∧ c < 600 then some (RestError.server c s s)
  else some (RestError.generic ("Unhandled StatusCode: " ++ s))

/-- DecodeResponse, restclient.go lines 264 to 296, from the point where
ioutil.ReadAll has already produced the body bytes (reading is input and
output on the network response and cannot fail once the bytes are in hand;
its failure branch is environmental). json.Unmarshal into the destination
is the parameter unmarshal, abstract because the destination is an
arbitrary Go value: it returns the possibly rewritten destination together
with some message on a parse failure, none on success. On a parse failure
DecodeResponse wraps the message in the text
"Failed to decode response: ". A zero-length body skips decoding. -/
def decodeResponse (unmarshal : List Char → V → Option String × V)
    (body : List Char) (dest : V) : Option String × V :=
  if body.length > 0 then
    match unmarshal body dest with
    | (some e, v) => (some ("Failed to decode response: " ++ e), v)
    | (none, v) => (none, v)
  else
    (none, dest)

/-- The inputs Execute works on once Client.Do has delivered a response:
the status code and status line of the response, the bytes of its body,
and the current value of the ResponseBody destination. -/
structure ExecState (V : Type) where
  statusCode : Int
  status : String
  body : List Char
  dest : V

/-- The errors Execute can return after communication succeeded: the
classification error from ProcessStatusCode, or the decode error from
DecodeResponse. -/
inductive ExecError where
  | classified (e : RestError)
  | decodeFailed (msg : String)
deriving DecidableEq

/-- Execute, restclient.go lines 153 to 185, after Client.Do succeeded
(its failure branch returns the transport error and touches nothing):
classify the status code, and only when classification returns no error
decode the body. The result pairs the returned error, if any, with the
final value of the ResponseBody destination. -/
def execute (unmarshal : List Char → V → Option String × V)
    (st : ExecState V) : Option ExecError × V :=
  match processStatusCode st.statusCode st.status with
  | some e => (some (ExecError.classified e), st.dest)
  | none =>
    match decodeResponse unmarshal st.body st.dest with
    | (some m, v) => (some (ExecError.decodeFailed m), v)
    | (none, v) => (none, v)

/-- The method names the restclient.Error interface requires, error.go
lines 3 to 7. -/
def errorInterfaceMethods : List String := ["Error", "Code", "Message"]

/-- The four concrete error types the package declares. -/
inductive ErrType where
  | notFoundError
  | requestError
  | serverError
  | baseError
deriving DecidableEq

/-- The method set of each error type, read off the func declarations with
that receiver: NotFoundError, RequestError and ServerError each declare
only an Error method (restclient.go lines 421, 433 and 445); BaseError
declares Error, Code and Message (error.go lines 15 to 25). -/
def methodSet : ErrType → List String
  | ErrType.notFoundError => ["Error"]
  | ErrType.requestError => ["Error"]
  | ErrType.serverError => ["Error"]
  | ErrType.baseError => ["Error", "Code", "Message"]

/-- Go interface satisfaction: a type satisfies the restclient.Error
interface exactly when its method set holds every required method. -/
def satisfiesErrorInterface (t : ErrType) : Bool :=
  errorInterfaceMethods.all (fun m => (methodSet t).contains m)

/-- The Error methods of the classified errors: the receiver functions at
restclient.go lines 421 to 448, and the text of the generic fmt error. -/
def restErrorText : RestError → String
  | RestError.notFound _ _ err => "Request: Not Found: " ++ err
  | RestError.request _ status err => "Request: Request failed: " ++ status ++ ": " ++ err
  | RestError.server _ status err => "Request: Server failure: " ++ status ++ ": " ++ err
  | RestError.generic msg => msg

/-- The accessor methods of BaseError, error.go lines 15 to 25, on its
fields StatusCode, Status and Err (err again holding the wrapped text). -/
structure BaseError where
  statusCode : Int
  status : String
  err : String
deriving DecidableEq

def BaseError.errorText (e : BaseError) : String := e.err

def BaseError.code (e : BaseError) : Int := e.statusCode

def BaseError.message (e : BaseError) : String := e.status

/-- A struct field as reflect exposes it to the form encoder: the declared
field name and the key-to-value pairs of the struct tag. -/
structure StructField where
  name : List Char
  tags : List (List Char × List Char)

/-- reflect.StructTag.Get: the value stored under the key, or the empty
string when the tag has no such key. -/
def tagGet (tags : List (List Char × List Char)) (key : List Char) : List Char :=
  match tags.lookup key with
  | some v => v
  | none => []

/-- strings.Index applied to a comma together with the two slices the code
takes around it: the characters before the first comma, and those after it
(none when no comma occurs, the index -1 case). -/
def breakComma : List Char → List Char × Option (List Char)
  | [] => ([], none)
  | c :: cs =>
    if c = ',' then ([], some cs)
    else (c :: (breakComma cs).1, (breakComma cs).2)

theorem breakComma_snd_length (s : List Char) :
    ∀ next, (breakComma s).2 = some next → next.length < s.length := by
  induction s with
  | nil =>
    intro next h
    simp [breakComma] at h
  | cons c cs ih =>
    intro next h
    by_cases hc : c = ','
    · simp [breakComma, hc] at h
      subst h
      simp
    · simp [breakComma, hc] at h
      have := ih next h
      simp
      omega

/-- breakComma with no comma found returns the whole string, and the string
then holds no comma. -/
theorem breakComma_none_eq :
    ∀ s : List Char, (breakComma s).2 = none → (breakComma s).1 = s ∧ ',' ∉ s := by
  intro s
  induction s with
  | nil =>
    intro _
    simp [breakComma]
  | cons c cs ih =>
    intro h
    by_cases hc : c = ','
    · simp [breakComma, hc] at h
    · simp only [breakComma, if_neg hc] at h ⊢
      rcases ih h with ⟨h1, h2⟩
      refine ⟨by rw [h1], ?_⟩
      intro hmem
      rcases List.mem_cons.mp hmem with heq | htl
      · exact hc heq.symm
      · exact h2 htl

/-- breakComma with a comma found cuts the string at its first comma: the
string is the piece before, a comma, then the piece after, and the piece
before holds no comma. -/
theorem breakComma_some_eq :
    ∀ (s post : List Char), (breakComma s).2 = some post →
      s = (breakComma s).1 ++ ',' :: post ∧ ',' ∉ (breakComma s).1 := by
  intro s
  induction s with
  | nil =>
    intro post h
    simp [breakComma] at h
  | cons c cs ih =>
    intro post h
    by_cases hc : c = ','
    · simp only [breakComma, if_pos hc] at h ⊢
      rcases h with h
      simp at h
      subst h
      simp [hc]
    · simp only [breakComma, if_neg hc] at h ⊢
      rcases ih post h with ⟨h1, h2⟩
      constructor
      · rw [List.cons_append]
        exact congrArg (List.cons c) h1
      · intro hmem
        rcases List.mem_cons.mp hmem with heq | htl
        · exact hc heq.symm
        · exact h2 htl

/-- The loop of tagOptions.Contains in the form encoder: cut the option
string at its first comma, compare the piece before it, and continue on
the piece after it; an empty string ends the loop with false. The loop
never compares a trailing empty segment: a final comma ends it. Each pass
shortens the string, so a fuel of its length bounds the iterations; the
fuel argument only makes the recursion structural, and
tagContainsLoop_fuel shows the result never depends on it. -/
def tagContainsLoop (opt : List Char) : Nat → List Char → Bool
  | _, [] => false
  | 0, _ => false
  | Nat.succ fuel, s =>
    match breakComma s with
    | (seg, none) => if seg = opt then true else false
    | (seg, some next) =>
      if seg = opt then true else tagContainsLoop opt fuel next

theorem tagContainsLoop_fuel (opt : List Char) :
    ∀ (fuel : Nat) (s : List Char), s.length ≤ fuel →
      ∀ (fuel2 : Nat), s.length ≤ fuel2 →
        tagContainsLoop opt fuel s = tagContainsLoop opt fuel2 s := by
  intro fuel
  induction fuel with
  | zero =>
    intro s hs fuel2 _
    have : s = [] := List.length_eq_zero.mp (Nat.le_zero.mp hs)
    subst this
    cases fuel2 <;> rfl
  | succ fuel ih =>
    intro s hs fuel2 hs2
    cases s with
    | nil => cases fuel2 <;> rfl
    | cons c cs =>
      cases fuel2 with
      | zero => simp at hs2
      | succ fuel2 =>
        show (match breakComma (c :: cs) with
            | (seg, none) => if seg = opt then true else false
            | (seg, some next) =>
              if seg = opt then true else tagContainsLoop opt fuel next) =
          (match breakComma (c :: cs) with
            | (seg, none) => if seg = opt then true else false
            | (seg, some next) =>
              if seg = opt then true else tagContainsLoop opt fuel2 next)
        rcases hb : breakComma (c :: cs) with ⟨seg, rest⟩
        cases rest with
        | none => rfl
        | some next =>
          dsimp only
          have hlt : next.length < (c :: cs).length :=
            breakComma_snd_length (c :: cs) next (by rw [hb])
          simp only [List.length_cons] at hlt hs hs2
          have h1 : next.length ≤ fuel := by omega
          have h2 : next.length ≤ fuel2 := by omega
          rw [ih next h1 fuel2 h2]

/-- tagOptions.Contains: does the comma-separated option string o contain
optionName as one of its compared segments. The length-zero guard of the
Go code coincides with the first loop test. -/
def tagOptionsContains (o optionName : List Char) : Bool :=
  tagContainsLoop optionName o.length o

/-- The split getTagName performs on a tag value: the name is the text
before the first comma and the options the text after it; a tag without a
comma is the whole name, with empty options. -/
def splitTag (t : List Char) : List Char × List Char :=
  match breakComma t with
  | (pre, some post) => (pre, post)
  | (_, none) => (t, [])

/-- getTagName in the form encoder: resolve the encoded name and options
of a field from its form tag when present (the value "-" excludes the
field), else from its json tag under the same rules, else fall back to the
declared field name with no options. -/
def getTagName (f : StructField) : List Char × List Char :=
  let formTag := tagGet f.tags "form".data
  if formTag ≠ [] then
    if formTag = "-".data then ([], [])
    else splitTag formTag
  else
    let jsonTag := tagGet f.tags "json".data
    if jsonTag ≠ [] then
      if jsonTag = "-".data then ([], [])
      else splitTag jsonTag
    else (f.name, [])

/-- What the specification means by splitting a tag at its first comma:
the name holds no comma, and either there was no comma at all and the name
is the whole tag with empty options, or the tag is the name, a comma, and
then the options. -/
def splitsAtFirstComma (t name opts : List Char) : Prop :=
  ',' ∉ name ∧ ((opts = [] ∧ ',' ∉ t ∧ name = t) ∨ t = name ++ ',' :: opts)

theorem splitTag_splits (t : List Char) :
    splitsAtFirstComma t (splitTag t).1 (splitTag t).2 := by
  rcases hb : breakComma t with ⟨pre, rest⟩
  cases rest with
  | none =>
    have hn := breakComma_none_eq t (by rw [hb])
    have hst : splitTag t = (t, []) := by unfold splitTag; rw [hb]
    rw [hst]
    exact ⟨hn.2, Or.inl ⟨rfl, hn.2, rfl⟩⟩
  | some post =>
    have hs := breakComma_some_eq t post (by rw [hb])
    rw [hb] at hs
    have hst : splitTag t = (pre, post) := by unfold splitTag; rw [hb]
    rw [hst]
    exact ⟨hs.2, Or.inr hs.1⟩

/-- A field value as the runtime-kind switch of structToVals sees it. The
signed and unsigned integer cases cover the widths the switch lists, all
formatted in base 10. The two float cases are rendered by
strconv.FormatFloat with fixed format and 4 fractional digits; that
rendering of binary floating point lies outside the embedding, so the
constructor carries the rendered text, which is all the later steps read.
Byte slices and strings carry their characters. otherV stands for every
other kind, which the switch skips. -/
inductive GoVal where
  | intV (i : Int)
  | uintV (n : Nat)
  | float32V (rendered : List Char)
  | float64V (rendered : List Char)
  | bytesV (bs : List Char)
  | strV (s : List Char)
  | otherV
deriving DecidableEq

/-- The string the switch of structToVals produces for a field value, or
none for an unhandled kind (the continue branch). strconv.FormatInt and
FormatUint in base 10 agree with the decimal rendering of toString. -/
def formatVal : GoVal → Option (List Char)
  | GoVal.intV i => some (toString i).data
  | GoVal.uintV n => some (toString n).data
  | GoVal.float32V rendered => some rendered
  | GoVal.float64V rendered => some rendered
  | GoVal.bytesV bs => some bs
  | GoVal.strV s => some s
  | GoVal.otherV => none

/-- One struct field with its reflected metadata and its value, as the
loop of structToVals visits them in declaration order. -/
structure GoField where
  meta : StructField
  val : GoVal

/-- url.Values.Set: replace whatever bindings the key held with the single
given value. -/
def valsSet (v : List (List Char × List Char)) (key value : List Char) :
    List (List Char × List Char) :=
  v.filter (fun p => decide (p.1 ≠ key)) ++ [(key, value)]

/-- One iteration of the loop of structToVals: format the value (an
unhandled kind is skipped), resolve the tag name (an empty name is
skipped), skip when the value is empty and the options hold omitempty,
otherwise set the binding. -/
def structToValsStep (v : List (List Char × List Char)) (f : GoField) :
    List (List Char × List Char) :=
  match formatVal f.val with
  | none => v
  | some val =>
    if (getTagName f.meta).1 = [] then v
    else if val = [] ∧ tagOptionsContains (getTagName f.meta).2 "omitempty".data then v
    else valsSet v (getTagName f.meta).1 val

/-- structToVals in the form encoder: fold the loop body over the fields
of the struct, starting from the empty url.Values map. The Go function
always returns a nil error alongside the map. -/
def structToVals (fields : List GoField) : List (List Char × List Char) :=
  fields.foldl structToValsStep []

/-- Basic authentication credentials, the Auth struct. -/
structure Auth where
  username : String
  password : String
deriving DecidableEq

/-- The Request struct, restclient.go lines 44 to 62: the fields the
embedded operations read or write. The raw http.Client, http.Request and
http.Response objects are represented by the operations themselves.
requestReader none models the nil io.Reader of a fresh Request; some s a
reader over the encoded bytes s. timeout counts nanoseconds as
time.Duration does. B is the type of the request body payload, an
arbitrary Go value behind the RequestBody interface. -/
structure Request (B : Type) where
  method : String
  url : String
  auth : Auth
  queryParameters : List (String × String)
  requestBody : Option B
  requestType : String
  requestReader : Option String
  timeout : Nat

/-- NewRequest, restclient.go lines 64 to 72: set Method, Url and Auth
from the arguments, the timeout to the default 2 seconds, and leave every
other field at its zero value. -/
def newRequest (B : Type) (method url : String) (auth : Auth) : Request B :=
  { method := method
    url := url
    auth := auth
    queryParameters := []
    requestBody := none
    requestType := ""
    requestReader := none
    timeout := 2 * 1000000000 }

/-- EncodeRequestBody, restclient.go lines 189 to 225. json.Marshal and
the form encoder applied to the body value are the parameters jsonEnc and
formEnc, abstract because the body is an arbitrary Go value; each returns
the encoded bytes or an error. A nil body returns at once. An empty
request type is first set to "json". A request type other than "json" and
"form" matches no switch case and leaves the encoded bytes nil, so the
reader then reads the empty byte slice. -/
def encodeRequestBody (jsonEnc formEnc : B → Except String String)
    (r : Request B) : Except String (Request B) :=
  match r.requestBody with
  | none => Except.ok r
  | some body =>
    let r1 := if r.requestType = "" then { r with requestType := "json" } else r
    let enc : Except String String :=
      if r1.requestType = "form" then formEnc body
      else if r1.requestType = "json" then jsonEnc body
      else Except.ok ""
    match enc with
    | Except.error e => Except.error e
    | Except.ok bs => Except.ok { r1 with requestReader := some bs }

/-- The outbound request, as http.NewRequest builds it and as the header
logic of Do decorates it: the method and URL taken verbatim (the URL
validity checks of net/http are outside the embedding), the body read from
the RequestReader, then a Content-Type header and basic auth. -/
structure HTTPRequest where
  method : String
  url : String
  body : Option String
  contentType : Option String
  basicAuth : Option Auth
deriving DecidableEq

/-- createHTTPRequest, restclient.go lines 328 to 344: call
http.NewRequest with r.Method, r.Url and r.RequestReader; headers start
empty and no other field of r is read. -/
def createHTTPRequest (r : Request B) : HTTPRequest :=
  { method := r.method
    url := r.url
    body := r.requestReader
    contentType := none
    basicAuth := none }

/-- Do, restclient.go lines 98 to 148, up to the network send: encode the
body, build the outbound request, set the Content-Type header from the
request type ("json" and "form" each get theirs, anything else none with
only a warning logged), and apply basic auth when a username is present. -/
def doRequest (jsonEnc formEnc : B → Except String String) (r : Request B) :
    Except String HTTPRequest :=
  match encodeRequestBody jsonEnc formEnc r with
  | Except.error e => Except.error e
  | Except.ok r1 =>
    let q0 := createHTTPRequest r1
    let q1 :=
      if r1.requestType = "json" then { q0 with contentType := some "application/json" }
      else if r1.requestType = "form" then
        { q0 with contentType := some "application/x-www-form-urlencoded" }
      else q0
    let q2 := if r1.auth.username ≠ "" then { q1 with basicAuth := some r1.auth } else q1
    Except.ok q2

/-- C1: ProcessStatusCode returns no error for 200 to 299, a NotFoundError
for 404, a RequestError for the other codes from 400 to 499, a ServerError
for 500 to 599, and a generic unclassified error for every other code; the
three typed errors carry the code in StatusCode and the status line in
Status unchanged (claimedStatusResult states exactly this classification). -/
theorem processStatusCode_matches_claim (c : Int) (s : String) :
    processStatusCode c s = claimedStatusResult c s := by
  unfold processStatusCode claimedStatusResult
  split_ifs <;> first | rfl | omega

/-- C2: when the status code classifies as an error, Execute returns that
classification error and the ResponseBody destination keeps its value; the
result does not depend on the unmarshal function, so DecodeResponse never
runs. -/
theorem execute_classified_skips_decode (unmarshal : List Char → V → Option String × V)
    (st : ExecState V) (e : RestError)
    (h : processStatusCode st.statusCode st.status = some e) :
    execute unmarshal st = (some (ExecError.classified e), st.dest) := by
  unfold execute
  rw [h]

theorem execute_classified_skips_decode_witness :
    execute (fun _ v => (none, v + 1))
        (ExecState.mk 404 "404 Not Found" "x".data (0 : Nat)) =
      (some (ExecError.classified
        (RestError.notFound 404 "404 Not Found" "404 Not Found")), 0) :=
  execute_classified_skips_decode _ _ _ (by decide)

/-- C3 counterexample: the claim says NotFoundError provides Code and
Message methods and satisfies the Error interface; in the code its method
set holds only Error, so interface satisfaction fails (and likewise the
Code and Message lookups). -/
theorem notFoundError_not_satisfying_error_interface :
    satisfiesErrorInterface ErrType.notFoundError = false ∧
    (methodSet ErrType.notFoundError).contains "Code" = false ∧
    (methodSet ErrType.notFoundError).contains "Message" = false := by
  decide

/-- C3 amended: each of the three typed errors provides an Error method
returning a human-readable text (whose content restErrorText states), but
none provides Code or Message methods, so none satisfies the common Error
interface; of the error types only BaseError satisfies it, and its Code
and Message methods return the numeric status code and the status line. -/
theorem typedErrors_error_method_only :
    (methodSet ErrType.notFoundError = ["Error"] ∧
      satisfiesErrorInterface ErrType.notFoundError = false) ∧
    (methodSet ErrType.requestError = ["Error"] ∧
      satisfiesErrorInterface ErrType.requestError = false) ∧
    (methodSet ErrType.serverError = ["Error"] ∧
      satisfiesErrorInterface ErrType.serverError = false) ∧
    satisfiesErrorInterface ErrType.baseError = true ∧
    (∀ c s e, restErrorText (RestError.notFound c s e) = "Request: Not Found: " ++ e) ∧
    (∀ c s e, restErrorText (RestError.request c s e) =
      "Request: Request failed: " ++ s ++ ": " ++ e) ∧
    (∀ c s e, restErrorText (RestError.server c s e) =
      "Request: Server failure: " ++ s ++ ": " ++ e) ∧
    (∀ b : BaseError, b.code = b.statusCode ∧ b.message = b.status) :=
  ⟨⟨rfl, rfl⟩, ⟨rfl, rfl⟩, ⟨rfl, rfl⟩, rfl,
    fun _ _ _ => rfl, fun _ _ _ => rfl, fun _ _ _ => rfl,
    fun _ => ⟨rfl, rfl⟩⟩

/-- C7: DecodeResponse on a zero-length body returns no error and keeps
the destination; on a non-empty body whose parse fails it returns the
decode error wrapping the parse failure message, with the destination as
the parse left it. -/
theorem decodeResponse_empty_and_malformed (unmarshal : List Char → V → Option String × V)
    (body : List Char) (dest : V) :
    (body = [] → decodeResponse unmarshal body dest = (none, dest)) ∧
    (∀ e v, body ≠ [] → unmarshal body dest = (some e, v) →
      decodeResponse unmarshal body dest =
        (some ("Failed to decode response: " ++ e), v)) := by
  constructor
  · intro hb
    subst hb
    rfl
  · intro e v hb hu
    have hlen : body.length > 0 := List.length_pos.mpr hb
    unfold decodeResponse
    rw [if_pos hlen, hu]

theorem getTagName_form_dash (f : StructField)
    (h1 : tagGet f.tags "form".data = "-".data) :
    getTagName f = ([], []) := by
  simp only [getTagName]
  rw [h1]
  rw [if_pos (by decide), if_pos rfl]

theorem getTagName_form_split (f : StructField)
    (h1 : tagGet f.tags "form".data ≠ [])
    (h2 : tagGet f.tags "form".data ≠ "-".data) :
    getTagName f = splitTag (tagGet f.tags "form".data) := by
  simp only [getTagName]
  rw [if_pos h1, if_neg h2]

theorem getTagName_json_dash (f : StructField)
    (h0 : tagGet f.tags "form".data = [])
    (h1 : tagGet f.tags "json".data = "-".data) :
    getTagName f = ([], []) := by
  simp only [getTagName]
  rw [h0, h1]
  rw [if_neg (by decide), if_pos (by decide), if_pos rfl]

theorem getTagName_json_split (f : StructField)
    (h0 : tagGet f.tags "form".data = [])
    (h1 : tagGet f.tags "json".data ≠ [])
    (h2 : tagGet f.tags "json".data ≠ "-".data) :
    getTagName f = splitTag (tagGet f.tags "json".data) := by
  simp only [getTagName]
  rw [h0]
  rw [if_neg (by decide), if_pos h1, if_neg h2]

theorem getTagName_default (f : StructField)
    (h0 : tagGet f.tags "form".data = [])
    (h1 : tagGet f.tags "json".data = []) :
    getTagName f = (f.name, []) := by
  simp only [getTagName]
  rw [h0, h1]
  rw [if_neg (by decide), if_neg (by decide)]

/-- C4: getTagName resolves a field name as the claim describes: a form
tag equal to "-" excludes the field (empty name); any other present form
tag is split at its first comma into name and options; with no form tag
the same two rules run on the json tag; with neither tag the declared
field name is used with no options. The function is total, so it never
signals an error. -/
theorem getTagName_resolves_as_claimed (f : StructField) :
    (tagGet f.tags "form".data ≠ [] →
      (tagGet f.tags "form".data = "-".data → getTagName f = ([], [])) ∧
      (tagGet f.tags "form".data ≠ "-".data →
        splitsAtFirstComma (tagGet f.tags "form".data)
          (getTagName f).1 (getTagName f).2)) ∧
    (tagGet f.tags "form".data = [] →
      (tagGet f.tags "json".data ≠ [] →
        (tagGet f.tags "json".data = "-".data → getTagName f = ([], [])) ∧
        (tagGet f.tags "json".data ≠ "-".data →
          splitsAtFirstComma (tagGet f.tags "json".data)
            (getTagName f).1 (getTagName f).2)) ∧
      (tagGet f.tags "json".data = [] → getTagName f = (f.name, []))) := by
  constructor
  · intro h1
    constructor
    · intro h2
      exact getTagName_form_dash f h2
    · intro h2
      rw [getTagName_form_split f h1 h2]
      exact splitTag_splits _
  · intro h0
    constructor
    · intro h1
      constructor
      · intro h2
        exact getTagName_json_dash f h0 h2
      · intro h2
        rw [getTagName_json_split f h0 h1 h2]
        exact splitTag_splits _
    · intro h1
      exact getTagName_default f h0 h1

theorem structToValsStep_skip (v : List (List Char × List Char)) (f : GoField)
    (h : (getTagName f.meta).1 = []) : structToValsStep v f = v := by
  unfold structToValsStep
  cases hf : formatVal f.val with
  | none => rfl
  | some val =>
    dsimp only
    rw [if_pos h]

theorem structToValsStep_omit (v : List (List Char × List Char)) (f : GoField)
    (hcont : tagOptionsContains (getTagName f.meta).2 "omitempty".data = true)
    (hfmt : formatVal f.val = some []) : structToValsStep v f = v := by
  unfold structToValsStep
  rw [hfmt]
  dsimp only
  by_cases h1 : (getTagName f.meta).1 = []
  · rw [if_pos h1]
  · rw [if_neg h1, if_pos ⟨rfl, hcont⟩]

theorem structToValsStep_set (v : List (List Char × List Char)) (f : GoField)
    (val : List Char)
    (hne : (getTagName f.meta).1 ≠ [])
    (hfmt : formatVal f.val = some val)
    (hval : val ≠ []) :
    structToValsStep v f = valsSet v (getTagName f.meta).1 val := by
  unfold structToValsStep
  rw [hfmt]
  dsimp only
  rw [if_neg hne, if_neg (fun hc => hval hc.1)]

theorem mem_keys_valsSet_self (v : List (List Char × List Char))
    (key value : List Char) : key ∈ (valsSet v key value).map Prod.fst := by
  unfold valsSet
  rw [List.map_append]
  exact List.mem_append_right _ (by simp)

theorem mem_keys_valsSet_mono (v : List (List Char × List Char))
    (k key value : List Char) (h : k ∈ v.map Prod.fst) :
    k ∈ (valsSet v key value).map Prod.fst := by
  by_cases hk : k = key
  · subst hk
    exact mem_keys_valsSet_self v k value
  · unfold valsSet
    rw [List.map_append]
    apply List.mem_append_left
    rcases List.mem_map.mp h with ⟨p, hp, hpk⟩
    refine List.mem_map.mpr ⟨p, List.mem_filter.mpr ⟨hp, ?_⟩, hpk⟩
    simp only [decide_eq_true_eq]
    rw [hpk]
    exact hk

theorem mem_keys_step (f : GoField) (v : List (List Char × List Char))
    (k : List Char) (h : k ∈ v.map Prod.fst) :
    k ∈ (structToValsStep v f).map Prod.fst := by
  unfold structToValsStep
  cases hf : formatVal f.val with
  | none => exact h
  | some val =>
    dsimp only
    by_cases h1 : (getTagName f.meta).1 = []
    · rw [if_pos h1]
      exact h
    · rw [if_neg h1]
      by_cases h2 : val = [] ∧ tagOptionsContains (getTagName f.meta).2 "omitempty".data
      · rw [if_pos h2]
        exact h
      · rw [if_neg h2]
        exact mem_keys_valsSet_mono v k _ val h

theorem mem_keys_foldl (fs : List GoField) (v : List (List Char × List Char))
    (k : List Char) (h : k ∈ v.map Prod.fst) :
    k ∈ (List.foldl structToValsStep v fs).map Prod.fst := by
  induction fs generalizing v with
  | nil => exact h
  | cons f fs ih => exact ih _ (mem_keys_step f v k h)

/-- C5: a field whose resolved options contain omitempty and whose
formatted value is the empty string contributes nothing to the encoded
form (the output equals that of the record without the field); the same
field with a non-empty formatted value and a non-empty resolved name puts
its resolved name among the keys of the output. -/
theorem omitempty_field_encoding (pre post : List GoField) (f : GoField)
    (name opts val : List Char) :
    (getTagName f.meta = (name, opts) →
      tagOptionsContains opts "omitempty".data = true →
      formatVal f.val = some [] →
      structToVals (pre ++ f :: post) = structToVals (pre ++ post)) ∧
    (getTagName f.meta = (name, opts) → name ≠ [] →
      formatVal f.val = some val → val ≠ [] →
      name ∈ (structToVals (pre ++ f :: post)).map Prod.fst) := by
  constructor
  · intro hname hcont hfmt
    have hstep : ∀ v, structToValsStep v f = v := by
      intro v
      exact structToValsStep_omit v f (by rw [hname]; exact hcont) hfmt
    unfold structToVals
    rw [List.foldl_append, List.foldl_append, List.foldl_cons, hstep]
  · intro hname hne hfmt hval
    have hstep : ∀ v, structToValsStep v f = valsSet v name val := by
      intro v
      have := structToValsStep_set v f val (by rw [hname]; exact hne) hfmt hval
      rw [hname] at this
      exact this
    unfold structToVals
    rw [List.foldl_append, List.foldl_cons, hstep]
    exact mem_keys_foldl post _ name (mem_keys_valsSet_self _ name val)

/-- C6: a field whose form tag is "-", or whose form tag is absent and
whose json tag is "-", contributes nothing to the encoded form, whatever
its value: the output equals that of the record without the field. -/
theorem ignored_field_never_encoded (pre post : List GoField) (f : GoField)
    (h : tagGet f.meta.tags "form".data = "-".data ∨
      (tagGet f.meta.tags "form".data = [] ∧
        tagGet f.meta.tags "json".data = "-".data)) :
    structToVals (pre ++ f :: post) = structToVals (pre ++ post) := by
  have hname : getTagName f.meta = ([], []) := by
    rcases h with h1 | ⟨h1, h2⟩
    · exact getTagName_form_dash f.meta h1
    · exact getTagName_json_dash f.meta h1 h2
  have hstep : ∀ v, structToValsStep v f = v := by
    intro v
    exact structToValsStep_skip v f (by rw [hname])
  unfold structToVals
  rw [List.foldl_append, List.foldl_append, List.foldl_cons, hstep]

/-- A concrete ignored field: form tag "-", string value "v". -/
def ignoredField : GoField :=
  GoField.mk (StructField.mk "x".data [("form".data, "-".data)]) (GoVal.strV "v".data)

theorem ignored_field_never_encoded_witness :
    structToVals ([] ++ ignoredField :: []) = structToVals ([] ++ []) :=
  ignored_field_never_encoded [] [] ignoredField (Or.inl (by decide))

/-- C8: with a non-nil body and an unset request type, EncodeRequestBody
sets the type to "json" and fills the reader with the JSON encoding of the
body; with request type "form" it fills the reader with the output of the
form encoder and the type stays "form". -/
theorem encodeRequestBody_kinds (jsonEnc formEnc : B → Except String String)
    (r : Request B) (b : B) (bs : String) :
    (r.requestBody = some b → r.requestType = "" → jsonEnc b = Except.ok bs →
      encodeRequestBody jsonEnc formEnc r =
        Except.ok { r with requestType := "json", requestReader := some bs }) ∧
    (r.requestBody = some b → r.requestType = "form" → formEnc b = Except.ok bs →
      encodeRequestBody jsonEnc formEnc r =
        Except.ok { r with requestReader := some bs }) := by
  obtain ⟨m, u, a, q, rb, rt, rr, tm⟩ := r
  constructor
  · intro hb ht hj
    dsimp only at hb ht
    subst ht
    rw [hb] at *
    simp [encodeRequestBody, hj]
  · intro hb ht hf
    dsimp only at hb ht
    subst ht
    rw [hb] at *
    simp [encodeRequestBody, hf]

/-- C9: NewRequest copies the method, URL and auth arguments into the new
Request unchanged, username and password included, and sets the timeout to
the default of 2 seconds (2000000000 nanoseconds). -/
theorem newRequest_preserves_fields (B : Type) (method url : String) (auth : Auth) :
    (newRequest B method url auth).method = method ∧
    (newRequest B method url auth).url = url ∧
    (newRequest B method url auth).auth = auth ∧
    (newRequest B method url auth).auth.username = auth.username ∧
    (newRequest B method url auth).auth.password = auth.password ∧
    (newRequest B method url auth).timeout = 2 * 1000000000 :=
  ⟨rfl, rfl, rfl, rfl, rfl, rfl⟩

theorem encodeRequestBody_qp (jsonEnc formEnc : B → Except String String)
    (r : Request B) (qp : List (String × String)) :
    encodeRequestBody jsonEnc formEnc { r with queryParameters := qp } =
      Except.map (fun s => { s with queryParameters := qp })
        (encodeRequestBody jsonEnc formEnc r) := by
  obtain ⟨m, u, a, q, rb, rt, rr, tm⟩ := r
  cases rb with
  | none => rfl
  | some b =>
    by_cases hrt : rt = ""
    · subst hrt
      cases hj : jsonEnc b <;> simp [encodeRequestBody, hj, Except.map]
    · by_cases hform : rt = "form"
      · subst hform
        cases hf : formEnc b <;> simp [encodeRequestBody, hf, Except.map]
      · by_cases hjson : rt = "json"
        · subst hjson
          cases hj : jsonEnc b <;> simp [encodeRequestBody, hj, Except.map]
        · simp [encodeRequestBody, hrt, hform, hjson, Except.map]

/-- C10: no lifecycle operation reads QueryParameters. Changing the field
changes neither the outbound request createHTTPRequest builds, nor the
request Do prepares, and EncodeRequestBody carries the field through
untouched; the URL of the outbound request is the Url field alone. -/
theorem queryParameters_never_read (jsonEnc formEnc : B → Except String String)
    (r : Request B) (qp : List (String × String)) :
    createHTTPRequest { r with queryParameters := qp } = createHTTPRequest r ∧
    (createHTTPRequest r).url = r.url ∧
    encodeRequestBody jsonEnc formEnc { r with queryParameters := qp } =
      Except.map (fun s => { s with queryParameters := qp })
        (encodeRequestBody jsonEnc formEnc r) ∧
    doRequest jsonEnc formEnc { r with queryParameters := qp } =
      doRequest jsonEnc formEnc r := by
  refine ⟨by cases r; rfl, rfl, encodeRequestBody_qp jsonEnc formEnc r qp, ?_⟩
  unfold doRequest
  rw [encodeRequestBody_qp jsonEnc formEnc r qp]
  cases hE : encodeRequestBody jsonEnc formEnc r with
  | error e => rfl
  | ok r1 => rfl

end Restclient
